import Mathlib

/-!
Verification of the heading-classification core of the PDF document-structure
extractor (Adobe Hackathon Round 1A repository).

The development shallowly embeds the two Python implementations:
* the rich path `python-parser/src/heading_classifier.py` (class `HeadingClassifier`), and
* the fast path `pdf_processor.py` (class `PDFProcessor`),
together with the response assembly of `python-parser/src/main.py` and
`process_pdfs.py`.

Modelling conventions
* Python `float` font sizes become `ℚ`.  The only float operations the code
  performs on sizes are comparisons, `max`, sorting, and adding the integer
  constants 4/2/1; on the point sizes that occur these are exact, so the
  rational model is faithful.  Float-by-float divisions followed by a
  comparison (`avg * 0.5`, `ratio < 0.1`, percentile indices `int(n * p)`)
  are embedded in exact cross-multiplied / floor form.
* Python `str` becomes `String`; operations are defined on the underlying
  `List Char` with ASCII semantics (the regexes in the source use ASCII
  classes up to `re.IGNORECASE`).
* The regular expressions of the source are embedded as deterministic
  prefix matchers; each matcher is named after the pattern it translates.
  The character classes involved (digits, whitespace, letters, word
  characters) are pairwise disjoint at every junction point of the
  patterns, so greedy deterministic matching coincides with backtracking.
* Module-level interpreter state (`SPACY_AVAILABLE`, `NLTK_AVAILABLE`,
  `self.stopwords`) becomes explicit parameters `nltkAvail : Bool` and
  `stop : List String`.  The spaCy-specific branches (POS tagging) are an
  external ML model and are modelled as unavailable; the NLTK branches are
  modelled (its `word_tokenize` is modelled as maximal word-character runs,
  which is its behaviour on the whitespace-separated alphabetic text used
  in the concrete inputs below).
-/

/-- Heading level literal `"H1" | "H2" | "H3"` of the Python code. -/
inductive HLevel where
  | H1
  | H2
  | H3
  deriving DecidableEq

/-- A text span as produced by the extractor (`pdf_parser._process_text_block` /
`pdf_processor._extract_page_data_fast`): text, point size, font name, bold flag. -/
structure Span where
  text : String
  size : ℚ
  font : String
  isBold : Bool
  deriving DecidableEq

/-- A text block: concatenated text plus its spans. -/
structure Block where
  text : String
  spans : List Span
  deriving DecidableEq

/-- A page: 1-indexed page number plus its blocks in reading order. -/
structure Page where
  pageNumber : ℕ
  blocks : List Block
  deriving DecidableEq

/-- One outline entry `{level, text, page}` (the dict the classifiers build). -/
structure Heading where
  level : HLevel
  text : String
  page : ℕ
  deriving DecidableEq

/-- The four font-size cut points `{h1, h2, h3, body}`. -/
structure Thresholds where
  h1 : ℚ
  h2 : ℚ
  h3 : ℚ
  body : ℚ
  deriving DecidableEq

/-- The output contract `{"title": ..., "outline": [...]}`. -/
structure TitleOutline where
  title : String
  outline : List Heading
  deriving DecidableEq

/-- Python `\s` (ASCII): space, tab, newline, carriage return, vertical tab, form feed. -/
def wsP (c : Char) : Bool :=
  c == ' ' || c == '\t' || c == '\n' || c == '\r' || c == '\x0b' || c == '\x0c'

/-- Python `\d` (ASCII). -/
def digitP (c : Char) : Bool :=
  '0' ≤ c && c ≤ '9'

/-- ASCII letter; this is what `[A-Z]` matches under `re.IGNORECASE`. -/
def letterP (c : Char) : Bool :=
  ('A' ≤ c && c ≤ 'Z') || ('a' ≤ c && c ≤ 'z')

/-- Python `\w` (ASCII): letter, digit or underscore. -/
def wordP (c : Char) : Bool :=
  letterP c || digitP c || c == '_'

/-- ASCII lower-casing of one character (Python `str.lower` on ASCII input). -/
def lowerChar (c : Char) : Char :=
  if 'A' ≤ c && c ≤ 'Z' then Char.ofNat (c.toNat + 32) else c

/-- ASCII upper-casing of one character. -/
def upperChar (c : Char) : Char :=
  if 'a' ≤ c && c ≤ 'z' then Char.ofNat (c.toNat - 32) else c

/-- Python `str.lower()`. -/
def pyLower (s : String) : String :=
  ⟨s.data.map lowerChar⟩

/-- Strip leading and trailing whitespace from a character list. -/
def stripChars (cs : List Char) : List Char :=
  ((cs.dropWhile wsP).reverse.dropWhile wsP).reverse

/-- Python `str.strip()`. -/
def pyStrip (s : String) : String :=
  ⟨stripChars s.data⟩

/-- Python `text.endswith(c)` for a single character. -/
def endsWithChar (s : String) (c : Char) : Bool :=
  match s.data.getLast? with
  | some d => d == c
  | none => false

/-- Maximal runs of characters satisfying `p` (helper, carries the current run
reversed in `acc`). -/
def runsOfAux (p : Char → Bool) : List Char → List Char → List (List Char)
  | [], acc => if acc.isEmpty then [] else [acc.reverse]
  | c :: rest, acc =>
    if p c then runsOfAux p rest (c :: acc)
    else if acc.isEmpty then runsOfAux p rest []
    else acc.reverse :: runsOfAux p rest []

/-- Maximal runs of characters satisfying `p`.  With `p = fun c => !wsP c`
this is Python `str.split()`; with `p = wordP` it is
`re.findall(r'\b\w+\b', ...)`. -/
def runsOf (p : Char → Bool) (cs : List Char) : List (List Char) :=
  runsOfAux p cs []

/-- Python `text.split()`: whitespace-separated words. -/
def pyWords (s : String) : List (List Char) :=
  runsOf (fun c => !wsP c) s.data

/-- Python `text.split('.')`: parts between the dots, keeping empty parts, so a
text with `n` dots yields `n + 1` parts. -/
def splitOnDot : List Char → List (List Char)
  | [] => [[]]
  | c :: rest =>
    if c == '.' then [] :: splitOnDot rest
    else (splitOnDot rest).modifyHead (fun part => c :: part)

/-- A deterministic prefix matcher: consumes a prefix of the input and returns
the remaining characters, or `none` when the pattern cannot match here. -/
abbrev Matcher := List Char → Option (List Char)

/-- Sequencing of two matchers. -/
def mSeq (m1 m2 : Matcher) : Matcher := fun cs =>
  match m1 cs with
  | some rest => m2 rest
  | none => none

/-- Ordered alternation of two matchers (regex `|`). -/
def mAlt (m1 m2 : Matcher) : Matcher := fun cs =>
  match m1 cs with
  | some rest => some rest
  | none => m2 cs

/-- One character of class `p`. -/
def mCharP (p : Char → Bool) : Matcher := fun cs =>
  match cs with
  | c :: rest => if p c then some rest else none
  | [] => none

/-- Optional character of class `p` (regex `X?`). -/
def mOptP (p : Char → Bool) : Matcher := fun cs =>
  match cs with
  | c :: rest => if p c then some rest else some cs
  | [] => some cs

/-- One or more characters of class `p`, greedy (regex `X+`). -/
def mMany1 (p : Char → Bool) : Matcher := fun cs =>
  match cs with
  | c :: rest => if p c then some (rest.dropWhile p) else none
  | [] => none

/-- Zero or more characters of class `p`, greedy (regex `X*`). -/
def mStar (p : Char → Bool) : Matcher := fun cs =>
  some (cs.dropWhile p)

/-- Case-insensitive literal (helper). -/
def mLitAux : List Char → List Char → Option (List Char)
  | [], cs => some cs
  | _ :: _, [] => none
  | l :: ls, c :: cs => if lowerChar c == lowerChar l then mLitAux ls cs else none

/-- Case-insensitive literal word, as compiled under `re.IGNORECASE`. -/
def mLitCI (lit : String) : Matcher := fun cs =>
  mLitAux lit.data cs

/-- Embeds `re.match(pattern, s)` viewed as a Bool: does the pattern match a prefix? -/
def reMatches (m : Matcher) (s : String) : Bool :=
  (m s.data).isSome

/-- Descending insertion into a list sorted by the Bool relation `ge`
(these two functions embed Python `list.sort(reverse=True)`; for the
value types sorted here, elements tied under `ge` are equal, so any
correct descending sort produces the same list as Python's stable one). -/
def insertDescBy {α : Type} (ge : α → α → Bool) (x : α) : List α → List α
  | [] => [x]
  | y :: ys => if ge x y then x :: y :: ys else y :: insertDescBy ge x ys

/-- Descending insertion sort by the Bool relation `ge`. -/
def sortDescBy {α : Type} (ge : α → α → Bool) : List α → List α
  | [] => []
  | x :: xs => insertDescBy ge x (sortDescBy ge xs)

/-- The descending comparison used to sort font sizes. -/
def geQ (a b : ℚ) : Bool :=
  decide (b ≤ a)

theorem insertDescBy_perm {α : Type} (ge : α → α → Bool) (x : α) (l : List α) :
    (insertDescBy ge x l).Perm (x :: l) := by
  induction l with
  | nil => simp [insertDescBy]
  | cons y ys ih =>
    by_cases h : ge x y = true
    · simp [insertDescBy, h]
    · simp only [insertDescBy, h]
      exact (ih.cons y).trans (List.Perm.swap x y ys)

theorem sortDescBy_perm {α : Type} (ge : α → α → Bool) (l : List α) :
    (sortDescBy ge l).Perm l := by
  induction l with
  | nil => simp [sortDescBy]
  | cons x xs ih =>
    exact (insertDescBy_perm ge x (sortDescBy ge xs)).trans (ih.cons x)

theorem sorted_insertDescBy {α : Type} (ge : α → α → Bool)
    (htrans : ∀ a b c, ge a b = true → ge b c = true → ge a c = true)
    (htotal : ∀ a b, ge a b = true ∨ ge b a = true)
    (x : α) (l : List α) (hl : l.Sorted (fun a b => ge a b = true)) :
    (insertDescBy ge x l).Sorted (fun a b => ge a b = true) := by
  induction l with
  | nil => simp [insertDescBy]
  | cons y ys ih =>
    rcases List.sorted_cons.mp hl with ⟨hy, hys⟩
    by_cases h : ge x y = true
    · simp only [insertDescBy, h, if_true]
      refine List.sorted_cons.mpr ⟨?_, hl⟩
      intro b hb
      rcases List.mem_cons.mp hb with hb | hb
      · exact hb ▸ h
      · exact htrans x y b h (hy b hb)
    · simp only [insertDescBy, h, if_false]
      refine List.sorted_cons.mpr ⟨?_, ih hys⟩
      intro b hb
      have hyx : ge y x = true := by
        rcases htotal x y with hxy | hyx
        · exact absurd hxy h
        · exact hyx
      have hperm := insertDescBy_perm ge x ys
      rcases List.mem_cons.mp ((hperm.mem_iff).mp hb) with hbx | hbys
      · exact hbx ▸ hyx
      · exact hy b hbys

theorem sorted_sortDescBy {α : Type} (ge : α → α → Bool)
    (htrans : ∀ a b c, ge a b = true → ge b c = true → ge a c = true)
    (htotal : ∀ a b, ge a b = true ∨ ge b a = true)
    (l : List α) : (sortDescBy ge l).Sorted (fun a b => ge a b = true) := by
  induction l with
  | nil => simp [sortDescBy]
  | cons x xs ih => exact sorted_insertDescBy ge htrans htotal x (sortDescBy ge xs) ih

theorem sortDescBy_length {α : Type} (ge : α → α → Bool) (l : List α) :
    (sortDescBy ge l).length = l.length :=
  (sortDescBy_perm ge l).length_eq

/-- On a list sorted descending, an earlier index holds the larger value.
Both indices must be in bounds. -/
theorem sorted_getD_ge (l : List ℚ)
    (hs : l.Sorted (fun a b : ℚ => geQ a b = true)) {i j : ℕ}
    (hij : i ≤ j) (hj : j < l.length) : l.getD i 0 ≥ l.getD j 0 := by
  have hi : i < l.length := lt_of_le_of_lt hij hj
  rw [List.getD_eq_getElem l 0 hi, List.getD_eq_getElem l 0 hj]
  rcases eq_or_lt_of_le hij with heq | hlt
  · subst heq; exact le_refl _
  · have := List.Sorted.rel_get_of_lt hs (a := ⟨i, hi⟩) (b := ⟨j, hj⟩) hlt
    simpa [geQ, List.get_eq_getElem] using this

/-- Pattern `^(chapter|section|part)\s+\d+` (IGNORECASE). -/
def patChapterNum : Matcher :=
  mSeq (mAlt (mLitCI "chapter") (mAlt (mLitCI "section") (mLitCI "part")))
    (mSeq (mMany1 wsP) (mMany1 digitP))

/-- Pattern `^\d+\.?\s+[A-Z]` (IGNORECASE). -/
def patNum1 : Matcher :=
  mSeq (mMany1 digitP) (mSeq (mOptP (· == '.')) (mSeq (mMany1 wsP) (mCharP letterP)))

/-- Pattern `^\d+\.\d+\.?\s+[A-Z]` (IGNORECASE). -/
def patNum2 : Matcher :=
  mSeq (mMany1 digitP) (mSeq (mCharP (· == '.')) (mSeq (mMany1 digitP)
    (mSeq (mOptP (· == '.')) (mSeq (mMany1 wsP) (mCharP letterP)))))

/-- Pattern `^\d+\.\d+\.\d+\.?\s+[A-Z]` (IGNORECASE). -/
def patNum3 : Matcher :=
  mSeq (mMany1 digitP) (mSeq (mCharP (· == '.')) (mSeq (mMany1 digitP)
    (mSeq (mCharP (· == '.')) (mSeq (mMany1 digitP)
      (mSeq (mOptP (· == '.')) (mSeq (mMany1 wsP) (mCharP letterP)))))))

/-- Roman-numeral class `[IVX]` under IGNORECASE. -/
def romanP (c : Char) : Bool :=
  c == 'I' || c == 'V' || c == 'X' || c == 'i' || c == 'v' || c == 'x'

/-- Pattern `^[IVX]+\.?\s+[A-Z]` (IGNORECASE). -/
def patRoman : Matcher :=
  mSeq (mMany1 romanP) (mSeq (mOptP (· == '.')) (mSeq (mMany1 wsP) (mCharP letterP)))

/-- Pattern `^[A-Z]\.?\s+[A-Z]` (IGNORECASE). -/
def patLetterEnum : Matcher :=
  mSeq (mCharP letterP) (mSeq (mOptP (· == '.')) (mSeq (mMany1 wsP) (mCharP letterP)))

/-- Optional `s` (the regex `s?` under IGNORECASE). -/
def mOptS : Matcher :=
  mOptP (fun c => lowerChar c == 's')

/-- Pattern `^(introduction|conclusion|summary|overview|background|methodology|results|discussion|references)` (IGNORECASE). -/
def patCommonWords1 : Matcher :=
  mAlt (mLitCI "introduction") (mAlt (mLitCI "conclusion") (mAlt (mLitCI "summary")
    (mAlt (mLitCI "overview") (mAlt (mLitCI "background") (mAlt (mLitCI "methodology")
      (mAlt (mLitCI "results") (mAlt (mLitCI "discussion") (mLitCI "references"))))))))

/-- Pattern `^(abstract|acknowledgments?|appendix|bibliography|glossary)` (IGNORECASE). -/
def patCommonWords2 : Matcher :=
  mAlt (mLitCI "abstract") (mAlt (mSeq (mLitCI "acknowledgment") mOptS)
    (mAlt (mLitCI "appendix") (mAlt (mLitCI "bibliography") (mLitCI "glossary"))))

/-- Pattern `^(table\s+of\s+contents?|contents?)` (IGNORECASE). -/
def patToc : Matcher :=
  mAlt (mSeq (mLitCI "table") (mSeq (mMany1 wsP) (mSeq (mLitCI "of")
    (mSeq (mMany1 wsP) (mSeq (mLitCI "content") mOptS)))))
    (mSeq (mLitCI "content") mOptS)

/-- Pattern `^(executive\s+summary|literature\s+review|case\s+study)` (IGNORECASE). -/
def patExec : Matcher :=
  mAlt (mSeq (mLitCI "executive") (mSeq (mMany1 wsP) (mLitCI "summary")))
    (mAlt (mSeq (mLitCI "literature") (mSeq (mMany1 wsP) (mLitCI "review")))
      (mSeq (mLitCI "case") (mSeq (mMany1 wsP) (mLitCI "study"))))

/-- Pattern `^[A-Z\s\-]{4,50}$`; under IGNORECASE the class is letters,
whitespace and hyphen, and `$` makes it a full match of 4 to 50 characters. -/
def patAllCapsFull (s : String) : Bool :=
  let cs := s.data
  decide (4 ≤ cs.length) && decide (cs.length ≤ 50) &&
    cs.all (fun c => letterP c || wsP c || c == '-')

/-- The loop over `HeadingClassifier.compiled_patterns` (heading_classifier.py
lines 42-66 and 383-385): does any of the eleven patterns match a prefix? -/
def richPatternMatch (t : String) : Bool :=
  reMatches patChapterNum t || reMatches patNum1 t || reMatches patNum2 t ||
  reMatches patNum3 t || reMatches patRoman t || reMatches patLetterEnum t ||
  reMatches patCommonWords1 t || reMatches patCommonWords2 t ||
  reMatches patToc t || reMatches patExec t || patAllCapsFull t

/-- Pattern `^\d+\.?\s+\w+` (no flags; heading_classifier.py line 388). -/
def patNumWord : Matcher :=
  mSeq (mMany1 digitP) (mSeq (mOptP (· == '.')) (mSeq (mMany1 wsP) (mMany1 wordP)))

/-- Pattern `^\d+\.\d+\.?\s+\w+` (no flags; heading_classifier.py line 392). -/
def patSubNumWord : Matcher :=
  mSeq (mMany1 digitP) (mSeq (mCharP (· == '.')) (mSeq (mMany1 digitP)
    (mSeq (mOptP (· == '.')) (mSeq (mMany1 wsP) (mMany1 wordP)))))

/-- Pattern `^\d+\.?\d*\.?\s+\w+` (heading_classifier.py line 198, the
numbered-section detector of `_analyze_document_structure`). -/
def patNumberedSection : Matcher :=
  mSeq (mMany1 digitP) (mSeq (mOptP (· == '.')) (mSeq (mStar digitP)
    (mSeq (mOptP (· == '.')) (mSeq (mMany1 wsP) (mMany1 wordP)))))

/-- Pattern `^\s*(figure|table|chart|graph)\s+\d+` (IGNORECASE), the caption
filter shared by `_is_potential_heading` and `_is_potential_heading_fast`. -/
def patCaption : Matcher :=
  mSeq (mStar wsP)
    (mSeq (mAlt (mLitCI "figure") (mAlt (mLitCI "table") (mAlt (mLitCI "chart") (mLitCI "graph"))))
      (mSeq (mMany1 wsP) (mMany1 digitP)))

/-- Whether a block's text matches the figure/table/chart/graph caption pattern. -/
def matchesCaption (s : String) : Bool :=
  reMatches patCaption s

/-- Embeds `HeadingClassifier._get_pattern_score` (heading_classifier.py lines 381-395):
2 on a compiled-pattern match; a numbered-section prefix scores 2 when the
document exhibits numbered sections and 1 otherwise; a sub-numbered prefix
scores 1; otherwise 0. -/
def getPatternScore (text : String) (hasNumberedSections : Bool) : ℕ :=
  if richPatternMatch (pyStrip text) then 2
  else if reMatches patNumWord (pyStrip text) then (if hasNumberedSections then 2 else 1)
  else if reMatches patSubNumWord (pyStrip text) then 1
  else 0

/-- Embeds `HeadingClassifier.heading_keywords` (heading_classifier.py lines 69-77). -/
def headingKeywords : List String :=
  ["introduction", "conclusion", "summary", "overview", "background",
   "methodology", "methods", "results", "discussion", "analysis",
   "abstract", "acknowledgments", "appendix", "bibliography", "glossary",
   "contents", "preface", "foreword", "executive", "literature",
   "review", "study", "research", "findings", "recommendations",
   "implementation", "evaluation", "assessment", "framework",
   "approach", "design", "architecture", "system", "model"]

/-- Embeds `HeadingClassifier._get_keyword_score` (heading_classifier.py lines 397-414):
tokenize the lower-cased text into word runs, drop stop words when a stop-word
list is loaded, then score 2 for at least two keyword hits, 1 for one, else 0. -/
def getKeywordScore (stop : List String) (text : String) : ℕ :=
  let words := (runsOf wordP (pyLower text).data).map (fun cs => (⟨cs⟩ : String))
  let words := if stop.isEmpty then words else words.filter (fun w => !(stop.contains w))
  let keywordMatches := words.countP (fun w => headingKeywords.contains w)
  if keywordMatches ≥ 2 then 2
  else if keywordMatches ≥ 1 then 1
  else 0

/-- Embeds `HeadingClassifier._is_potential_heading` (heading_classifier.py lines
290-312).  The alphanumeric ratio test `alpha_chars < len(text) * 0.6` is
embedded in the exact cross-multiplied form `alpha * 5 < len * 3`. -/
def isPotentialHeading (text : String) : Bool :=
  if text.data.length < 3 ∨ text.data.length > 200 then false
  else if (text.data.filter (fun c => wordP c || wsP c)).length * 5 < text.data.length * 3 then
    false
  else if (endsWithChar text '.' || endsWithChar text '!') = true ∧
      (splitOnDot text.data).length > 1 then false
  else if (pyWords text).length > 15 ∧ endsWithChar text '.' = true then false
  else if matchesCaption text = true then false
  else true

/-- Embeds `PDFProcessor._is_potential_heading_fast` (pdf_processor.py lines 265-277). -/
def isPotentialHeadingFast (text : String) : Bool :=
  if text.data.length < 3 ∨ text.data.length > 200 then false
  else if endsWithChar text '.' = true ∧ (pyWords text).length > 15 then false
  else if matchesCaption text = true then false
  else true

/-- Embeds `HeadingClassifier._get_max_font_size` (lines 314-319): fold `max`
starting from 0 over the block's span sizes. -/
def getMaxFontSize (b : Block) : ℚ :=
  b.spans.foldl (fun m sp => max m sp.size) 0

/-- Embeds `HeadingClassifier._is_text_isolated` (lines 328-344): the block is
isolated when its text is shorter than half the page's average block length.
`text_length < avg_length * 0.5` is embedded as
`text_length * block_count * 2 < total_length` (exact for a positive count). -/
def isTextIsolated (b : Block) (page : Page) : Bool :=
  let blockCount := page.blocks.length
  if blockCount = 0 then false
  else decide (b.text.data.length * blockCount * 2 <
    (page.blocks.map (fun ob => ob.text.data.length)).sum)

/-- The font-size sub-score of `_classify_text_as_heading`
(heading_classifier.py lines 353-361). -/
def sizeScoreOf (fontSize : ℚ) (th : Thresholds) : ℕ :=
  if fontSize ≥ th.h1 then 3
  else if fontSize ≥ th.h2 then 2
  else if fontSize ≥ th.h3 then 1
  else 0

/-- Embeds `HeadingClassifier._classify_text_as_heading` (lines 346-379): combine
pattern, size, bold, isolation and keyword sub-scores with pattern weighted
double, then decide H1/H2/H3/None. -/
def classifyTextAsHeading (stop : List String) (text : String) (fontSize : ℚ)
    (isBold : Bool) (th : Thresholds) (isIsolated : Bool) (hasNumbered : Bool) :
    Option HLevel :=
  let patternScore := getPatternScore text hasNumbered
  let sizeScore := sizeScoreOf fontSize th
  let boldScore := if isBold then 1 else 0
  let isolationScore := if isIsolated then 1 else 0
  let keywordScore := getKeywordScore stop text
  let totalScore := patternScore * 2 + sizeScore + boldScore + isolationScore + keywordScore
  if totalScore ≥ 6 ∨ patternScore ≥ 2 then some HLevel.H1
  else if totalScore ≥ 4 ∨ (sizeScore ≥ 2 ∧ patternScore ≥ 1) then some HLevel.H2
  else if totalScore ≥ 3 ∨ (sizeScore ≥ 1 ∧ (patternScore ≥ 1 ∨ keywordScore ≥ 1)) then
    some HLevel.H3
  else none

/-- Embeds `has_numbered_sections` of `HeadingClassifier._analyze_document_structure`
(lines 176-217): some block's stripped text starts like a numbered section.
Only this field of `document_stats` is ever read by the classifier
(`_get_pattern_score`), so only it is embedded. -/
def hasNumberedSections (pages : List Page) : Bool :=
  pages.any (fun p => p.blocks.any (fun b => reMatches patNumberedSection (pyStrip b.text)))

/-- Embeds `HeadingClassifier._classify_page_headings` (lines 255-288): filter each
block through `_is_potential_heading`, score it, and emit `{type, text, page}`
for blocks classified as headings. -/
def classifyPageHeadings (stop : List String) (th : Thresholds) (hasNumbered : Bool)
    (page : Page) : List Heading :=
  page.blocks.filterMap (fun b =>
    let text := pyStrip b.text
    if isPotentialHeading text = false then none
    else
      match classifyTextAsHeading stop text (getMaxFontSize b) (b.spans.any (fun sp => sp.isBold))
          th (isTextIsolated b page) hasNumbered with
      | some lvl => some ⟨lvl, text, page.pageNumber⟩
      | none => none)

/-- The loop body of `HeadingClassifier._refine_heading_hierarchy` (lines
416-455), carrying the running `h1_count` and `h2_count`.  An H1 beyond the
tenth with short text is demoted to H2; the first H2 with no H1 yet is
promoted to H1; an H3 before any H1 and H2 is promoted to H2. -/
def refineAux : ℕ → ℕ → List Heading → List Heading
  | _, _, [] => []
  | h1c, h2c, ⟨lvl, text, page⟩ :: rest =>
    match lvl with
    | HLevel.H1 =>
      if h1c + 1 > 10 ∧ text.data.length < 30 then
        ⟨HLevel.H2, text, page⟩ :: refineAux (h1c + 1) h2c rest
      else
        ⟨HLevel.H1, text, page⟩ :: refineAux (h1c + 1) h2c rest
    | HLevel.H2 =>
      if h1c = 0 ∧ h2c + 1 = 1 then
        ⟨HLevel.H1, text, page⟩ :: refineAux (h1c + 1) (h2c + 1) rest
      else
        ⟨HLevel.H2, text, page⟩ :: refineAux h1c (h2c + 1) rest
    | HLevel.H3 =>
      if h1c = 0 ∧ h2c = 0 then
        ⟨HLevel.H2, text, page⟩ :: refineAux h1c (h2c + 1) rest
      else
        ⟨HLevel.H3, text, page⟩ :: refineAux h1c h2c rest

/-- Embeds `HeadingClassifier._refine_heading_hierarchy` (lines 416-455). -/
def refineHeadingHierarchy (headings : List Heading) : List Heading :=
  refineAux 0 0 headings

/-- Embeds `PDFProcessor._refine_hierarchy_fast` (pdf_processor.py lines 317-326):
force the first heading, if any, to H1. -/
def refineHierarchyFast (headings : List Heading) : List Heading :=
  match headings with
  | [] => []
  | h :: rest => (if h.level ≠ HLevel.H1 then ⟨HLevel.H1, h.text, h.page⟩ else h) :: rest

/-- Python `str.isalpha()`: non-empty and all alphabetic. -/
def pyIsAlpha (cs : List Char) : Bool :=
  !cs.isEmpty && cs.all letterP

/-- The NLTK branch of `HeadingClassifier._apply_nlp_filtering` (lines 481-489):
keep a heading when its lower-cased tokenization has at least one alphabetic
non-stop-word token. -/
def nltkContentCheck (stop : List String) (text : String) : Bool :=
  let tokens := (runsOf wordP (pyLower text).data).map (fun cs => (⟨cs⟩ : String))
  let contentTokens := tokens.filter (fun t => pyIsAlpha t.data && !(stop.contains t))
  !(contentTokens.length = 0)

/-- Embeds `HeadingClassifier._apply_nlp_filtering` (lines 457-493) with spaCy
unavailable: the NLTK content filter over the heading list. -/
def applyNlpFiltering (stop : List String) (headings : List Heading) : List Heading :=
  headings.filter (fun h => nltkContentCheck stop h.text)

/-- Embeds `HeadingClassifier._calculate_font_thresholds` (lines 219-253).  The font
metrics are the per-font `sizes` lists of the parser's dict; the percentile
index `max(0, int(n * p))` is embedded as `max 0 ((n * 100p) / 100)` in exact
integer arithmetic. -/
def calculateFontThresholds (fontMetrics : List (List ℚ)) : Thresholds :=
  let allSizes := fontMetrics.flatMap id
  if allSizes = [] then ⟨16, 14, 12, 10⟩
  else
    let sorted := sortDescBy geQ allSizes
    let n := allSizes.length
    let h1t := sorted.getD (max 0 ((n * 3) / 100)) 0
    let h2t := sorted.getD (max 0 ((n * 10) / 100)) 0
    let h3t := sorted.getD (max 0 ((n * 25) / 100)) 0
    let bodyt := sorted.getD (max 0 ((n * 70) / 100)) 0
    ⟨max h1t (bodyt + 4), max h2t (bodyt + 2), max h3t (bodyt + 1), bodyt⟩

/-- Embeds `HeadingClassifier.classify_headings` (lines 91-128) with spaCy
unavailable and NLTK availability explicit: thresholds, per-page
classification, hierarchy refinement, then NLP filtering when available. -/
def classifyHeadings (pages : List Page) (fontMetrics : List (List ℚ))
    (stop : List String) (nltkAvail : Bool) : List Heading :=
  let th := calculateFontThresholds fontMetrics
  let hasNumbered := hasNumberedSections pages
  let headings := pages.flatMap (classifyPageHeadings stop th hasNumbered)
  let refined := refineHeadingHierarchy headings
  if nltkAvail then applyNlpFiltering stop refined else refined

/-- Embeds `PDFProcessor._calculate_thresholds_fast` (pdf_processor.py lines 183-206):
percentile picks at 5%/15%/30% and the median, with no body-offset clamping. -/
def calcThresholdsFast (fontInfo : List (List ℚ)) : Thresholds :=
  let allSizes := fontInfo.flatMap id
  if allSizes = [] then ⟨16, 14, 12, 10⟩
  else
    let sorted := sortDescBy geQ allSizes
    let n := allSizes.length
    ⟨sorted.getD (max 0 ((n * 5) / 100)) 0,
     sorted.getD (max 0 ((n * 15) / 100)) 0,
     sorted.getD (max 0 ((n * 30) / 100)) 0,
     sorted.getD (n / 2) 0⟩

/-- Embeds `PDFProcessor.heading_keywords` (pdf_processor.py lines 67-71). -/
def fastKeywords : List String :=
  ["introduction", "conclusion", "summary", "overview", "background",
   "abstract", "references", "acknowledgments", "appendix", "contents",
   "methodology", "results", "discussion", "analysis"]

/-- The first four compiled patterns of `PDFProcessor.heading_patterns`
(pdf_processor.py lines 51-64), the only ones `_classify_text_fast` checks. -/
def fastPatternMatch (t : String) : Bool :=
  reMatches patNum1 t || reMatches patNum2 t || reMatches patChapterNum t ||
  reMatches patRoman t

/-- Embeds `PDFProcessor._classify_text_fast` (lines 279-315): pattern, size, keyword
(substring containment) and bold scores, summed without weighting, with
decision cut-offs 4/3/2. -/
def classifyTextFast (text : String) (fontSize : ℚ) (isBold : Bool)
    (th : Thresholds) : Option HLevel :=
  let patternScore := if fastPatternMatch (pyStrip text) then 2 else 0
  let sizeScore := sizeScoreOf fontSize th
  let keywordScore :=
    if fastKeywords.any (fun kw => decide (kw.data <:+: (pyLower text).data)) then 1 else 0
  let boldScore := if isBold then 1 else 0
  let totalScore := patternScore + sizeScore + boldScore + keywordScore
  if totalScore ≥ 4 then some HLevel.H1
  else if totalScore ≥ 3 then some HLevel.H2
  else if totalScore ≥ 2 then some HLevel.H3
  else none

/-- Embeds `max((span.get("size", 12) for span in spans), default=12)` of
`_classify_headings_fast` (line 247): 12 for a spanless block, otherwise the
maximum span size. -/
def maxSizeFast : List Span → ℚ
  | [] => 12
  | sp :: rest => rest.foldl (fun m s => max m s.size) sp.size

/-- Embeds `PDFProcessor._classify_headings_fast` (lines 232-263). -/
def classifyHeadingsFast (pagesData : List Page) (th : Thresholds) : List Heading :=
  refineHierarchyFast (pagesData.flatMap (fun page =>
    page.blocks.filterMap (fun b =>
      let text := pyStrip b.text
      if isPotentialHeadingFast text = false then none
      else
        match classifyTextFast text (maxSizeFast b.spans) (b.spans.any (fun sp => sp.isBold)) th with
        | some lvl => some ⟨lvl, text, page.pageNumber⟩
        | none => none)))

/-- Embeds `re.match(r'^\s*\d+\s*$', text)`: only whitespace around one digit run
(`_is_page_number`, identical in both classes). -/
def isPageNumber (text : String) : Bool :=
  let afterWs := text.data.dropWhile wsP
  let digits := afterWs.takeWhile digitP
  !digits.isEmpty && (afterWs.dropWhile digitP).all wsP

/-- The footer vocabulary of `HeadingClassifier._is_likely_header_footer`
(lines 544-546). -/
def footerWords : List String :=
  ["page", "copyright", "confidential", "draft", "proprietary", "©"]

/-- Embeds `HeadingClassifier._is_likely_header_footer` (lines 538-546): a bare page
number, or text containing a footer word (the `page_data` argument of the
source is unused and omitted). -/
def isLikelyHeaderFooter (text : String) : Bool :=
  if (pyStrip text).data ≠ [] ∧ ((pyStrip text).data.all digitP) then true
  else footerWords.any (fun w => decide (w.data <:+: (pyLower text).data))

/-- Everything before the last dot: Python `filename.rsplit('.', 1)[0]`. -/
def beforeLastDot (cs : List Char) : List Char :=
  match cs.reverse.dropWhile (fun c => !(c == '.')) with
  | [] => cs
  | _ :: rest => rest.reverse

/-- Python `str.capitalize()`: first character upper-cased, the rest
lower-cased. -/
def pyCapitalize : List Char → List Char
  | [] => []
  | c :: rest => upperChar c :: rest.map lowerChar

/-- Embeds `HeadingClassifier._clean_filename` (lines 552-566): drop the extension,
turn `_`/`-` into spaces, split into words, capitalize and re-join. -/
def cleanFilename (filename : String) : String :=
  if filename = "" then "Untitled Document"
  else
    let title := beforeLastDot filename.data
    let title := title.map (fun c => if c == '_' || c == '-' then ' ' else c)
    ⟨List.intercalate [' '] ((runsOf (fun c => !wsP c) title).map pyCapitalize)⟩

/-- Embeds `PDFProcessor._clean_filename` (pdf_processor.py lines 332-343): as the
rich version (its extra `\s+` collapse is subsumed by the split), but an
empty result falls back to "Untitled Document" via the `or`. -/
def cleanFilenameFast (filename : String) : String :=
  if filename = "" then "Untitled Document"
  else
    let title := beforeLastDot filename.data
    let title := title.map (fun c => if c == '_' || c == '-' then ' ' else c)
    let joined : String := ⟨List.intercalate [' '] ((runsOf (fun c => !wsP c) title).map pyCapitalize)⟩
    if joined = "" then "Untitled Document" else joined

/-- Python `str.isupper()` on ASCII text: at least one letter and no
lower-case letter. -/
def pyIsUpper (s : String) : Bool :=
  s.data.any letterP && s.data.all (fun c => !('a' ≤ c && c ≤ 'z'))

/-- The candidate score of `HeadingClassifier._select_best_title` (lines
504-532) with spaCy unavailable: +2 for two or more words (the `elif` +3
branch of the source is unreachable and kept as dead code here), +1 for a
punctuation ratio below 0.1 (embedded as `punct * 10 < len`), +1 for not
being long all-caps. -/
def titleScore (c : String) : ℕ :=
  let words := runsOf (fun ch => !wsP ch) c.data
  let s1 : ℕ := if words.length ≥ 2 then 2 else if words.length ≥ 3 then 3 else 0
  let punctCount := (c.data.filter (fun ch =>
    !(letterP ch || digitP ch) && !(ch == ' '))).length
  let s2 : ℕ := if punctCount * 10 < c.data.length then 1 else 0
  let s3 : ℕ := if !(pyIsUpper c) || c.data.length ≤ 10 then 1 else 0
  s1 + s2 + s3

/-- Python `<` on strings: lexicographic comparison of code points. -/
def strLtB : List Char → List Char → Bool
  | [], [] => false
  | [], _ :: _ => true
  | _ :: _, [] => false
  | a :: as, b :: bs =>
    if a.toNat < b.toNat then true
    else if b.toNat < a.toNat then false
    else strLtB as bs

/-- The descending order `sort(reverse=True)` uses on `(score, candidate)`
tuples: Python tuple comparison, so score first, then the candidate string. -/
def tupleGe (a b : ℕ × String) : Bool :=
  decide (b.1 < a.1) || (decide (a.1 = b.1) && !strLtB a.2.data b.2.data)

/-- Embeds `HeadingClassifier._select_best_title` (lines 495-536) with spaCy
unavailable: none for no candidates, the unique candidate for one, otherwise
the head of the `(score, candidate)` list sorted descending. -/
def selectBestTitle (cands : List String) : Option String :=
  match cands with
  | [] => none
  | [c] => some c
  | c1 :: c2 :: rest =>
    let scored := (c1 :: c2 :: rest).map (fun c => (titleScore c, c))
    match sortDescBy tupleGe scored with
    | p :: _ => some p.2
    | [] => none

/-- Embeds `HeadingClassifier.extract_title` (lines 130-174): scan the first page's
spans for texts of length 5-100 that are not header/footer/page-number,
keeping all candidates tied at the maximum size, then pick via
`_select_best_title`, falling back to the cleaned filename.  The
`font_metrics` argument of the source is unused and kept for the signature. -/
def extractTitle (pages : List Page) (fontMetrics : List (List ℚ))
    (filename : String) : String :=
  match pages with
  | [] => cleanFilename filename
  | firstPage :: _ =>
    let scan := (firstPage.blocks.flatMap (fun b => b.spans)).foldl
      (fun (st : ℚ × List String) sp =>
        let text := pyStrip sp.text
        if 5 ≤ text.data.length ∧ text.data.length ≤ 100 ∧ sp.size ≥ st.1 ∧
            isLikelyHeaderFooter text = false ∧ isPageNumber text = false then
          if sp.size > st.1 then (sp.size, [text]) else (st.1, st.2 ++ [text])
        else st) ((0 : ℚ), [])
    match scan.2 with
    | [] => cleanFilename filename
    | _ :: _ =>
      match selectBestTitle scan.2 with
      | some t => if t = "" then cleanFilename filename else t
      | none => cleanFilename filename

/-- Embeds `PDFProcessor._extract_title_fast` (pdf_processor.py lines 208-230): scan
the spans of the first five blocks of the first page, keeping the first text
of strictly maximal size, with the cleaned filename as fallback. -/
def extractTitleFast (pagesData : List Page) (filename : String) : String :=
  match pagesData with
  | [] => cleanFilenameFast filename
  | firstPage :: _ =>
    let scan := ((firstPage.blocks.take 5).flatMap (fun b => b.spans)).foldl
      (fun (st : ℚ × String) sp =>
        let text := pyStrip sp.text
        if 5 ≤ text.data.length ∧ text.data.length ≤ 100 ∧ sp.size > st.1 ∧
            isPageNumber text = false then
          (sp.size, text)
        else st) ((0 : ℚ), "")
    if scan.2 ≠ "" then scan.2 else cleanFilenameFast filename

/-- Embeds `PDFProcessor.process_pdf` (pdf_processor.py lines 75-136), exception-free
path, on an already-extracted document: at most 50 pages are processed, zero
pages yield the empty title and outline, and otherwise the fast threshold,
title and classification stages run.  The per-font grouping of `font_info` is
flattened per page; the threshold calculator only uses the flattened multiset.
-/
def processPdf (docPages : List Page) (filename : String) : TitleOutline :=
  let pageCount := min docPages.length 50
  if pageCount = 0 then ⟨"", []⟩
  else
    let pagesData := docPages.take pageCount
    let fontInfo := pagesData.map (fun p => p.blocks.flatMap (fun b => b.spans.map (fun sp => sp.size)))
    let th := calcThresholdsFast fontInfo
    ⟨extractTitleFast pagesData filename, classifyHeadingsFast pagesData th⟩

/-- The response assembly of the service endpoint `extract_headings`
(main.py lines 232-259): title from `extract_title`, outline from
`classify_headings`. -/
def serviceResponse (pages : List Page) (fontMetrics : List (List ℚ))
    (stop : List String) (nltkAvail : Bool) (filename : String) : TitleOutline :=
  ⟨extractTitle pages fontMetrics filename,
   classifyHeadings pages fontMetrics stop nltkAvail⟩

/-- The hierarchy invariant stated by the spec (§3 and §8): walking the
outline left to right, an H2 needs an earlier H1 and an H3 needs both an
earlier H1 and an earlier H2. -/
def hierarchyValidAux : Bool → Bool → List Heading → Bool
  | _, _, [] => true
  | seen1, seen2, h :: rest =>
    match h.level with
    | HLevel.H1 => hierarchyValidAux true seen2 rest
    | HLevel.H2 => seen1 && hierarchyValidAux seen1 true rest
    | HLevel.H3 => seen1 && seen2 && hierarchyValidAux seen1 seen2 rest

/-- Hierarchy validity of a whole outline. -/
def hierarchyValid (headings : List Heading) : Bool :=
  hierarchyValidAux false false headings

/-- The decision table exactly as the spec §4.4 words it: `total ≥ 6 OR
pattern == 2 → H1`; `total ≥ 4 OR (size ≥ 2 AND pattern ≥ 1) → H2`;
`total ≥ 3 OR (size ≥ 1 AND (pattern ≥ 1 OR keyword ≥ 1)) → H3`; else None,
with `total = 2×pattern + size + style + isolation + keyword`. -/
def specScorerDecision (pattern size style isolation keyword : ℕ) : Option HLevel :=
  let total := 2 * pattern + size + style + isolation + keyword
  if total ≥ 6 ∨ pattern = 2 then some HLevel.H1
  else if total ≥ 4 ∨ (size ≥ 2 ∧ pattern ≥ 1) then some HLevel.H2
  else if total ≥ 3 ∨ (size ≥ 1 ∧ (pattern ≥ 1 ∨ keyword ≥ 1)) then some HLevel.H3
  else none

theorem geQ_trans (a b c : ℚ) (hab : geQ a b = true) (hbc : geQ b c = true) :
    geQ a c = true := by
  simp only [geQ, decide_eq_true_eq] at *
  exact le_trans hbc hab

theorem geQ_total (a b : ℚ) : geQ a b = true ∨ geQ b a = true := by
  simp only [geQ, decide_eq_true_eq]
  exact le_total b a

theorem getPatternScore_le_two (text : String) (hasNumbered : Bool) :
    getPatternScore text hasNumbered ≤ 2 := by
  unfold getPatternScore
  split_ifs <;> omega

theorem refineAux_map_text_page (c1 c2 : ℕ) (hs : List Heading) :
    (refineAux c1 c2 hs).map (fun h => (h.text, h.page)) =
      hs.map (fun h => (h.text, h.page)) := by
  induction hs generalizing c1 c2 with
  | nil => rfl
  | cons h rest ih =>
    obtain ⟨lvl, text, page⟩ := h
    cases lvl <;> simp only [refineAux] <;> split_ifs <;> simp [ih]

theorem refineAux_length (c1 c2 : ℕ) (hs : List Heading) :
    (refineAux c1 c2 hs).length = hs.length := by
  have h := congrArg List.length (refineAux_map_text_page c1 c2 hs)
  simpa using h

theorem mem_refineHeadingHierarchy_text {h : Heading} {hs : List Heading}
    (hm : h ∈ refineHeadingHierarchy hs) : ∃ h2 ∈ hs, h.text = h2.text := by
  have hmap := refineAux_map_text_page 0 0 hs
  have hmem : (h.text, h.page) ∈ hs.map (fun h => (h.text, h.page)) := by
    rw [← hmap]
    exact List.mem_map_of_mem _ hm
  rcases List.mem_map.mp hmem with ⟨h2, hh2, heq⟩
  rcases Prod.mk.injEq .. ▸ heq with ⟨htext, _⟩
  exact ⟨h2, hh2, htext.symm⟩

theorem mem_refineHierarchyFast_text {h : Heading} {hs : List Heading}
    (hm : h ∈ refineHierarchyFast hs) : ∃ h2 ∈ hs, h.text = h2.text := by
  cases hs with
  | nil => simp [refineHierarchyFast] at hm
  | cons h0 rest =>
    simp only [refineHierarchyFast] at hm
    rcases List.mem_cons.mp hm with heq | hmem
    · refine ⟨h0, List.mem_cons_self h0 rest, ?_⟩
      subst heq
      split_ifs <;> rfl
    · exact ⟨h, List.mem_cons_of_mem h0 hmem, rfl⟩

theorem mem_classifyPageHeadings_potential {stop : List String} {th : Thresholds}
    {hasNumbered : Bool} {page : Page} {h : Heading}
    (hm : h ∈ classifyPageHeadings stop th hasNumbered page) :
    isPotentialHeading h.text = true := by
  rcases List.mem_filterMap.mp hm with ⟨b, _, hf⟩
  simp only at hf
  by_cases hpot : isPotentialHeading (pyStrip b.text) = false
  · simp [hpot] at hf
  · rw [Bool.not_eq_false] at hpot
    simp only [hpot, Bool.true_eq_false, if_false] at hf
    cases hcl : classifyTextAsHeading stop (pyStrip b.text) (getMaxFontSize b)
        (b.spans.any (fun sp => sp.isBold)) th (isTextIsolated b page) hasNumbered with
    | none => simp [hcl] at hf
    | some lvl =>
      rw [hcl] at hf
      cases hf
      exact hpot

theorem isPotentialHeading_no_caption {t : String}
    (h : isPotentialHeading t = true) : matchesCaption t = false := by
  unfold isPotentialHeading at h
  split_ifs at h with h1 h2 h3 h4 h5
  exact Bool.eq_false_iff.mpr (fun hc => h5 (by rw [hc]))

theorem isPotentialHeadingFast_no_caption {t : String}
    (h : isPotentialHeadingFast t = true) : matchesCaption t = false := by
  unfold isPotentialHeadingFast at h
  split_ifs at h with h1 h2 h3
  exact Bool.eq_false_iff.mpr (fun hc => h3 (by rw [hc]))

theorem strLtB_irrefl (cs : List Char) : strLtB cs cs = false := by
  induction cs with
  | nil => rfl
  | cons c rest ih => simp [strLtB, ih]

theorem strLtB_trans {a b c : List Char} (hab : strLtB a b = true)
    (hbc : strLtB b c = true) : strLtB a c = true := by
  induction a generalizing b c with
  | nil =>
    cases c with
    | nil =>
      cases b with
      | nil => exact hbc
      | cons y bs => simp [strLtB] at hbc
    | cons z cs2 => rfl
  | cons x as ih =>
    cases b with
    | nil => simp [strLtB] at hab
    | cons y bs =>
      cases c with
      | nil => simp [strLtB] at hbc
      | cons z cs2 =>
        simp only [strLtB] at hab hbc ⊢
        split_ifs at hab hbc ⊢ with h1 h2 h3 h4 h5 h6 <;>
          first
            | rfl
            | omega
            | (exact ih hab hbc)

theorem strLtB_eq_of_not_lt {a b : List Char} (hab : strLtB a b = false)
    (hba : strLtB b a = false) : a = b := by
  induction a generalizing b with
  | nil =>
    cases b with
    | nil => rfl
    | cons y bs => simp [strLtB] at hab
  | cons x as ih =>
    cases b with
    | nil => simp [strLtB] at hba
    | cons y bs =>
      simp only [strLtB] at hab hba
      split_ifs at hab hba with h1 h2 <;> try simp_all
      have hxy : x = y := Char.eq_of_val_eq (UInt32.ext (Nat.le_antisymm h2 h1))
      exact ⟨hxy, ih hab hba⟩

theorem strLtB_asymm {a b : List Char} (h : strLtB a b = true) :
    strLtB b a = false := by
  by_contra hba
  rw [Bool.not_eq_false] at hba
  have := strLtB_trans h hba
  rw [strLtB_irrefl] at this
  exact Bool.false_ne_true this

theorem tupleGe_refl (a : ℕ × String) : tupleGe a a = true := by
  simp [tupleGe, strLtB_irrefl]

theorem tupleGe_trans (a b c : ℕ × String) (hab : tupleGe a b = true)
    (hbc : tupleGe b c = true) : tupleGe a c = true := by
  simp only [tupleGe, Bool.or_eq_true, Bool.and_eq_true, decide_eq_true_eq,
    Bool.not_eq_true'] at hab hbc ⊢
  rcases hab with hab | ⟨hab1, hab2⟩ <;> rcases hbc with hbc | ⟨hbc1, hbc2⟩
  · exact Or.inl (lt_trans hbc hab)
  · exact Or.inl (by omega)
  · exact Or.inl (by omega)
  · refine Or.inr ⟨by omega, ?_⟩
    by_contra hlt
    rw [Bool.not_eq_false] at hlt
    by_cases hba : strLtB b.2.data a.2.data = true
    · have := strLtB_trans hba hlt
      rw [hbc2] at this
      exact Bool.false_ne_true this
    · rw [Bool.not_eq_true] at hba
      rw [strLtB_eq_of_not_lt hab2 hba] at hlt
      rw [hbc2] at hlt
      exact Bool.false_ne_true hlt

theorem tupleGe_total (a b : ℕ × String) : tupleGe a b = true ∨ tupleGe b a = true := by
  simp only [tupleGe, Bool.or_eq_true, Bool.and_eq_true, decide_eq_true_eq,
    Bool.not_eq_true']
  rcases lt_trichotomy a.1 b.1 with h | h | h
  · exact Or.inr (Or.inl h)
  · cases hlt : strLtB a.2.data b.2.data with
    | false => exact Or.inl (Or.inr ⟨h, rfl⟩)
    | true => exact Or.inr (Or.inr ⟨h.symm, strLtB_asymm hlt⟩)
  · exact Or.inl (Or.inl h)

theorem splitOnDot_ne_nil (cs : List Char) : splitOnDot cs ≠ [] := by
  induction cs with
  | nil => simp [splitOnDot]
  | cons c rest ih =>
    by_cases h : c == '.'
    · simp [splitOnDot, h]
    · simp only [splitOnDot, h, Bool.false_eq_true, if_false]
      cases hs : splitOnDot rest with
      | nil => exact absurd hs ih
      | cons p ps => simp [List.modifyHead]

theorem one_lt_splitOnDot_of_dot {cs : List Char} (h : '.' ∈ cs) :
    1 < (splitOnDot cs).length := by
  induction cs with
  | nil => simp at h
  | cons c rest ih =>
    by_cases hc : c = '.'
    · subst hc
      simp only [splitOnDot, beq_self_eq_true, if_true, List.length_cons]
      have := List.length_pos.mpr (splitOnDot_ne_nil rest)
      omega
    · have hmem : '.' ∈ rest := by
        rcases List.mem_cons.mp h with heq | hmem
        · exact absurd heq.symm hc
        · exact hmem
      have hbeq : (c == '.') = false := by simp [hc]
      simp only [splitOnDot, hbeq, Bool.false_eq_true, if_false, List.length_modifyHead]
      exact ih hmem

/-- C1: the spec's hierarchy invariant fails on the code: the rich refiner
turns a lone H3 into an H2 with no H1 before it, and the fast refiner leaves
an H3 with no H2 before it; both outputs violate the invariant the refiners
are documented to enforce. -/
theorem refiner_output_violates_hierarchy :
    hierarchyValid (refineHeadingHierarchy [⟨HLevel.H3, "1.1.1 Details", 1⟩]) = false ∧
    hierarchyValid (refineHierarchyFast
      [⟨HLevel.H1, "Chapter 1", 1⟩, ⟨HLevel.H3, "1.1.1 Details", 1⟩]) = false := by
  decide

/-- C2 counterexample: the rich Hierarchy Refiner is not idempotent: a lone H3
is promoted to H2 by the first pass and promoted again to H1 by a second pass. -/
theorem refine_twice_differs :
    refineHeadingHierarchy (refineHeadingHierarchy [⟨HLevel.H3, "Details", 1⟩]) ≠
      refineHeadingHierarchy [⟨HLevel.H3, "Details", 1⟩] := by
  decide

/-- C2 amended: the fast refiner `_refine_hierarchy_fast` is idempotent on
every input; re-running it on its own output is a no-op. -/
theorem refineHierarchyFast_idempotent (headings : List Heading) :
    refineHierarchyFast (refineHierarchyFast headings) = refineHierarchyFast headings := by
  cases headings with
  | nil => rfl
  | cons h rest => by_cases hl : h.level = HLevel.H1 <;> simp [refineHierarchyFast, hl]

/-- C10: both refiners change only the `level` field: the refined list has the
same length, and position by position the same `text` and `page`, as its input. -/
theorem refiners_change_only_levels (headings : List Heading) :
    ((refineHeadingHierarchy headings).length = headings.length ∧
     (refineHeadingHierarchy headings).map (fun h => (h.text, h.page)) =
       headings.map (fun h => (h.text, h.page))) ∧
    ((refineHierarchyFast headings).length = headings.length ∧
     (refineHierarchyFast headings).map (fun h => (h.text, h.page)) =
       headings.map (fun h => (h.text, h.page))) := by
  refine ⟨⟨refineAux_length 0 0 headings, refineAux_map_text_page 0 0 headings⟩, ?_, ?_⟩
  · cases headings with
    | nil => rfl
    | cons h rest => simp only [refineHierarchyFast]; split_ifs <;> simp
  · cases headings with
    | nil => rfl
    | cons h rest => simp only [refineHierarchyFast]; split_ifs <;> simp

/-- C8 counterexample: on zero pages the service path (main.py assembling
`extract_title` and `classify_headings`) returns the filename-derived title
"Annual Report", not the empty title the claim requires. -/
theorem service_zero_pages_filename_title :
    serviceResponse [] [] [] false "annual_report.pdf" = ⟨"Annual Report", []⟩ ∧
    ("Annual Report" : String) ≠ "" := by
  constructor
  · rfl
  · decide

/-- C8 amended: on zero pages the batch processor `process_pdf` returns
exactly `{"title": "", "outline": []}`, while the service path returns the
cleaned filename as title together with an empty outline. -/
theorem process_pdf_empty_vs_service (filename : String) (fm : List (List ℚ))
    (stop : List String) (avail : Bool) :
    processPdf [] filename = ⟨"", []⟩ ∧
    serviceResponse [] fm stop avail filename = ⟨cleanFilename filename, []⟩ := by
  cases avail <;> exact ⟨rfl, rfl⟩

/-- C6 counterexample: the short declarative heading "Overview." (one word,
ends in a period) is rejected by the Candidate Filter even though the
caption-free word "Overview" passes, and its word count is far below 15. -/
theorem filter_rejects_short_declarative :
    isPotentialHeading "Overview" = true ∧ isPotentialHeading "Overview." = false ∧
    (pyWords "Overview.").length ≤ 15 := by
  decide

/-- C6 amended: the rich Candidate Filter rejects every text ending in `.`:
splitting a dot-terminated text on `.` always produces a trailing empty part,
so the more-than-one-sentence test is vacuously true and the fifteen-word
test never gets a say. -/
theorem filter_rejects_every_dot_ending (s : String)
    (h : s.data.getLast? = some '.') : isPotentialHeading s = false := by
  have hdot : '.' ∈ s.data := by
    rcases List.mem_getLast?_eq_getLast (x := '.') (l := s.data) (by rw [h]; rfl) with
      ⟨hne, heq⟩
    rw [heq]
    exact List.getLast_mem hne
  have hend : endsWithChar s '.' = true := by
    simp [endsWithChar, h]
  have hsplit : 1 < (splitOnDot s.data).length := one_lt_splitOnDot_of_dot hdot
  unfold isPotentialHeading
  split_ifs with h1 h2 h3 <;> try rfl
  exact absurd ⟨by rw [hend]; rfl, hsplit⟩ h3

/-- C6 amended, witness at "Overview.". -/
theorem filter_rejects_every_dot_ending_witness :
    "Overview.".data.getLast? = some '.' ∧ isPotentialHeading "Overview." = false :=
  ⟨by decide, filter_rejects_every_dot_ending _ (by decide)⟩

/-- C4: the Multi-Signal Scorer's decision is exactly the spec's ordered
decision table: the code's `pattern_score >= 2` test coincides with the
spec's `pattern == 2` because pattern scores never exceed 2, and the other
cut-offs are verbatim. -/
theorem scorer_decision_order (stop : List String) (text : String) (fontSize : ℚ)
    (isBold : Bool) (th : Thresholds) (isIsolated : Bool) (hasNumbered : Bool) :
    classifyTextAsHeading stop text fontSize isBold th isIsolated hasNumbered =
      specScorerDecision (getPatternScore text hasNumbered) (sizeScoreOf fontSize th)
        (if isBold then 1 else 0) (if isIsolated then 1 else 0)
        (getKeywordScore stop text) := by
  have hp := getPatternScore_le_two text hasNumbered
  simp only [classifyTextAsHeading, specScorerDecision]
  generalize getPatternScore text hasNumbered = p at hp ⊢
  generalize sizeScoreOf fontSize th = sz
  generalize getKeywordScore stop text = k
  generalize (if isBold then (1 : ℕ) else 0) = b
  generalize (if isIsolated then (1 : ℕ) else 0) = iso
  split_ifs <;> first | rfl | omega

/-- C3: for every non-empty size multiset both Threshold Calculators produce
`h1 ≥ h2 ≥ h3 ≥ body`: the percentile indices grow along the descending
sorted list, and the rich calculator's body-offset clamps only widen the gaps. -/
theorem thresholds_monotone (fm : List (List ℚ)) (h : fm.flatMap id ≠ []) :
    ((calculateFontThresholds fm).h1 ≥ (calculateFontThresholds fm).h2 ∧
     (calculateFontThresholds fm).h2 ≥ (calculateFontThresholds fm).h3 ∧
     (calculateFontThresholds fm).h3 ≥ (calculateFontThresholds fm).body) ∧
    ((calcThresholdsFast fm).h1 ≥ (calcThresholdsFast fm).h2 ∧
     (calcThresholdsFast fm).h2 ≥ (calcThresholdsFast fm).h3 ∧
     (calcThresholdsFast fm).h3 ≥ (calcThresholdsFast fm).body) := by
  have hn : 0 < (fm.flatMap id).length := List.length_pos.mpr h
  have hsorted := sorted_sortDescBy geQ geQ_trans geQ_total (fm.flatMap id)
  have hlen := sortDescBy_length geQ (fm.flatMap id)
  have key : ∀ i j : ℕ, i ≤ j → j < (fm.flatMap id).length →
      (sortDescBy geQ (fm.flatMap id)).getD i 0 ≥ (sortDescBy geQ (fm.flatMap id)).getD j 0 := by
    intro i j hij hj
    exact sorted_getD_ge _ hsorted hij (by rw [hlen]; exact hj)
  simp only [calculateFontThresholds, calcThresholdsFast, if_neg h]
  refine ⟨⟨?_, ?_, ?_⟩, ?_, ?_, ?_⟩
  · exact max_le_max (key _ _ (by omega) (by omega)) (by linarith)
  · exact max_le_max (key _ _ (by omega) (by omega)) (by linarith)
  · exact le_trans (by linarith) (le_max_right _ _)
  · exact key _ _ (by omega) (by omega)
  · exact key _ _ (by omega) (by omega)
  · exact key _ _ (by omega) (by omega)

/-- C3, witness at the one-size metrics `[[12]]`. -/
theorem thresholds_monotone_witness :
    ([[(12 : ℚ)]].flatMap id ≠ []) ∧
    (((calculateFontThresholds [[(12 : ℚ)]]).h1 ≥ (calculateFontThresholds [[(12 : ℚ)]]).h2 ∧
      (calculateFontThresholds [[(12 : ℚ)]]).h2 ≥ (calculateFontThresholds [[(12 : ℚ)]]).h3 ∧
      (calculateFontThresholds [[(12 : ℚ)]]).h3 ≥ (calculateFontThresholds [[(12 : ℚ)]]).body) ∧
     ((calcThresholdsFast [[(12 : ℚ)]]).h1 ≥ (calcThresholdsFast [[(12 : ℚ)]]).h2 ∧
      (calcThresholdsFast [[(12 : ℚ)]]).h2 ≥ (calcThresholdsFast [[(12 : ℚ)]]).h3 ∧
      (calcThresholdsFast [[(12 : ℚ)]]).h3 ≥ (calcThresholdsFast [[(12 : ℚ)]]).body)) :=
  ⟨by decide, thresholds_monotone [[(12 : ℚ)]] (by decide)⟩

/-- C7: no outline entry of either pipeline ever carries a caption text:
blocks matching the figure/table/chart/graph pattern are rejected by the
candidate filters before scoring, refinement only relabels levels, and the
NLP filter only removes entries. -/
theorem no_caption_in_outline (pages : List Page) (fontMetrics : List (List ℚ))
    (stop : List String) (nltkAvail : Bool) (th : Thresholds) :
    ((classifyHeadings pages fontMetrics stop nltkAvail).all
       (fun h => !(matchesCaption h.text)) = true) ∧
    ((classifyHeadingsFast pages th).all (fun h => !(matchesCaption h.text)) = true) := by
  constructor
  · rw [List.all_eq_true]
    intro h hm
    simp only [classifyHeadings] at hm
    have hmem : h ∈ refineHeadingHierarchy
        (pages.flatMap (classifyPageHeadings stop (calculateFontThresholds fontMetrics)
          (hasNumberedSections pages))) := by
      cases nltkAvail with
      | false => exact hm
      | true =>
        simp only [if_true, applyNlpFiltering] at hm
        exact (List.mem_filter.mp hm).1
    rcases mem_refineHeadingHierarchy_text hmem with ⟨h2, hh2, htext⟩
    rcases List.mem_flatMap.mp hh2 with ⟨page, _, hpg⟩
    have hpot := mem_classifyPageHeadings_potential hpg
    rw [htext]
    simp [isPotentialHeading_no_caption hpot]
  · rw [List.all_eq_true]
    intro h hm
    simp only [classifyHeadingsFast] at hm
    rcases mem_refineHierarchyFast_text hm with ⟨h2, hh2, htext⟩
    rcases List.mem_flatMap.mp hh2 with ⟨page, _, hpg⟩
    rcases List.mem_filterMap.mp hpg with ⟨b, _, hf⟩
    by_cases hpot : isPotentialHeadingFast (pyStrip b.text) = false
    · simp [hpot] at hf
    · rw [Bool.not_eq_false] at hpot
      simp only [hpot, Bool.true_eq_false, if_false] at hf
      cases hcl : classifyTextFast (pyStrip b.text) (maxSizeFast b.spans)
          (b.spans.any (fun sp => sp.isBold)) th with
      | none => simp [hcl] at hf
      | some lvl =>
        rw [hcl] at hf
        cases hf
        rw [htext]
        simp [isPotentialHeadingFast_no_caption hpot]

/-- C5 counterexample: two first-page candidates tied at the maximum size,
"Alpha Report" first in document order, both multi-word with equal heuristic
scores: the Title Selector returns "Beta Report", the lexicographically
greatest, not the first encountered. -/
theorem extract_title_tie_not_first :
    extractTitle [⟨1, [⟨"Alpha Report Beta Report",
      [⟨"Alpha Report", 20, "F", false⟩, ⟨"Beta Report", 20, "F", false⟩]⟩]⟩] []
      "report.pdf" = "Beta Report" ∧ ("Beta Report" : String) ≠ "Alpha Report" := by
  constructor
  · decide
  · decide

/-- C5 amended: among the candidates tied at the maximum size the selector
returns a candidate whose `(score, candidate)` pair — score: +2 for
multi-word, +1 for low punctuation, +1 for not long-all-caps — is maximal
under Python's descending tuple order, which breaks score ties by the
lexicographically greatest candidate string rather than document order. -/
theorem selectBestTitle_max (cands : List String) (c : String)
    (h : selectBestTitle cands = some c) :
    c ∈ cands ∧ ∀ d ∈ cands, tupleGe (titleScore c, c) (titleScore d, d) = true := by
  cases cands with
  | nil => simp [selectBestTitle] at h
  | cons c1 rest =>
    cases rest with
    | nil =>
      simp only [selectBestTitle, Option.some.injEq] at h
      subst h
      refine ⟨List.mem_singleton_self _, ?_⟩
      intro d hd
      rcases List.mem_singleton.mp hd with rfl
      exact tupleGe_refl _
    | cons c2 rest2 =>
      simp only [selectBestTitle] at h
      cases hsort : sortDescBy tupleGe ((c1 :: c2 :: rest2).map (fun c => (titleScore c, c))) with
      | nil =>
        have hperm := sortDescBy_perm tupleGe ((c1 :: c2 :: rest2).map (fun c => (titleScore c, c)))
        rw [hsort] at hperm
        have := hperm.symm.length_eq
        simp at this
      | cons p tail =>
        rw [hsort] at h
        simp only [Option.some.injEq] at h
        have hperm := sortDescBy_perm tupleGe ((c1 :: c2 :: rest2).map (fun c => (titleScore c, c)))
        have hsorted := sorted_sortDescBy tupleGe tupleGe_trans tupleGe_total
          ((c1 :: c2 :: rest2).map (fun c => (titleScore c, c)))
        rw [hsort] at hperm hsorted
        have hpmem : p ∈ (c1 :: c2 :: rest2).map (fun c => (titleScore c, c)) :=
          hperm.mem_iff.mp (List.mem_cons_self p tail)
        rcases List.mem_map.mp hpmem with ⟨a, ha, hpa⟩
        have hac : a = c := by rw [← h, ← hpa]
        subst hac
        have hpc : (titleScore a, a) = p := hpa
        constructor
        · exact ha
        · intro d hd
          have hdmem : (titleScore d, d) ∈ p :: tail :=
            hperm.symm.mem_iff.mp (List.mem_map_of_mem _ hd)
          rcases List.mem_cons.mp hdmem with heq | htail
          · rw [hpc, heq]
            exact tupleGe_refl _
          · rw [hpc]
            exact List.rel_of_sorted_cons hsorted _ htail

/-- C5 amended, witness at the tied pair. -/
theorem selectBestTitle_max_witness :
    selectBestTitle ["Alpha Report", "Beta Report"] = some "Beta Report" ∧
    ("Beta Report" ∈ (["Alpha Report", "Beta Report"] : List String) ∧
     ∀ d ∈ (["Alpha Report", "Beta Report"] : List String),
       tupleGe (titleScore "Beta Report", "Beta Report") (titleScore d, d) = true) :=
  ⟨by decide, selectBestTitle_max _ _ (by decide)⟩

/-- C9 counterexample: on a one-block document whose heading is the all-caps
stop-word text "AND OR THE", the pipeline without NLP yields an H1 outline
entry, while with NLTK available (English stop words include "and", "or",
"the") the NLP filtering pass drops the entry: availability changes which
entries survive into the Outline. -/
theorem nlp_availability_changes_outline :
    classifyHeadings [⟨1, [⟨"AND OR THE", [⟨"AND OR THE", 12, "Helv", false⟩]⟩]⟩]
      [[(12 : ℚ)]] [] false = [⟨HLevel.H1, "AND OR THE", 1⟩] ∧
    classifyHeadings [⟨1, [⟨"AND OR THE", [⟨"AND OR THE", 12, "Helv", false⟩]⟩]⟩]
      [[(12 : ℚ)]] ["and", "or", "the"] true = [] := by
  have hth : calculateFontThresholds [[(12 : ℚ)]] = ⟨16, 14, 13, 12⟩ := by
    norm_num [calculateFontThresholds, sortDescBy, insertDescBy, geQ]
  constructor <;>
  · simp only [classifyHeadings, hth]
    decide

theorem getKeywordScore_stop_invariant (stop : List String) (t : String)
    (hdisj : ∀ w ∈ stop, headingKeywords.contains w = false) :
    getKeywordScore stop t = getKeywordScore [] t := by
  by_cases hstop : stop.isEmpty = true
  · rw [List.isEmpty_iff.mp hstop]
  · have hcnt : ∀ words : List String,
        List.countP (fun w => headingKeywords.contains w)
          (List.filter (fun w => !(stop.contains w)) words) =
        List.countP (fun w => headingKeywords.contains w) words := by
      intro words
      rw [List.countP_filter]
      apply List.countP_congr
      intro w _
      constructor
      · intro hand
        exact (Bool.and_eq_true _ _).mp hand |>.1
      · intro hcont
        rw [Bool.and_eq_true]
        refine ⟨hcont, ?_⟩
        rw [Bool.not_eq_true']
        cases hmem : stop.contains w with
        | false => rfl
        | true =>
          have hw : w ∈ stop := List.mem_of_elem_eq_true hmem
          rw [hdisj w hw] at hcont
          exact absurd hcont (by simp)
    simp only [getKeywordScore]
    rw [if_neg hstop, if_pos (show (([] : List String).isEmpty) = true from rfl), hcnt]

/-- C9 amended: availability never changes the per-block H1/H2/H3/None
decisions or the refined sequence — for any stop-word list disjoint from the
heading keywords, the pipeline before the NLP filtering pass is identical to
the pipeline with no stop words; only the final NLP filtering pass, which can
drop entries, depends on availability. -/
theorem stopwords_disjoint_no_level_change (pages : List Page)
    (fm : List (List ℚ)) (stop : List String)
    (hdisj : ∀ w ∈ stop, headingKeywords.contains w = false) :
    classifyHeadings pages fm stop false = classifyHeadings pages fm [] false := by
  simp only [classifyHeadings, Bool.false_eq_true, if_false]
  congr 1
  apply List.flatMap_congr
  intro page _
  unfold classifyPageHeadings
  apply List.filterMap_congr
  intro b _
  have hk := getKeywordScore_stop_invariant stop (pyStrip b.text) hdisj
  simp only [classifyTextAsHeading, hk]

/-- C9 amended, witness: the stop words "and", "or", "the" are disjoint from
the heading keywords, and on the all-caps stop-word document the pre-NLP
pipeline is unchanged by them. -/
theorem stopwords_disjoint_no_level_change_witness :
    (∀ w ∈ (["and", "or", "the"] : List String), headingKeywords.contains w = false) ∧
    classifyHeadings [⟨1, [⟨"AND OR THE", [⟨"AND OR THE", 12, "Helv", false⟩]⟩]⟩]
        [[(12 : ℚ)]] ["and", "or", "the"] false =
      classifyHeadings [⟨1, [⟨"AND OR THE", [⟨"AND OR THE", 12, "Helv", false⟩]⟩]⟩]
        [[(12 : ℚ)]] [] false :=
  ⟨by decide, stopwords_disjoint_no_level_change _ _ _ (by decide)⟩
